import Mathlib

/-!
Verification of the NAFI configuration parser (nafi.go) against its
specification. Go strings are modelled as lists of characters, Go maps as
association lists in which a later write shadows the earlier binding. The
external ini/json/yaml decoders are black boxes in the specification and are
modelled by their contracts; the conf decoder and every lookup path live in
nafi.go and are translated directly.
-/

set_option autoImplicit false

namespace Nafi

/-- Go strings, modelled as lists of characters. -/
abbrev GoString := List Char

/-- The whitespace characters removed by strings.TrimSpace (unicode.IsSpace),
restricted to the Latin-1 range. -/
def isGoSpace (c : Char) : Bool :=
  c == ' ' || c == '\t' || c == '\n' || c == Char.ofNat 11 || c == Char.ofNat 12 ||
    c == '\r' || c == Char.ofNat 0x85 || c == Char.ofNat 0xA0

/-- strings.TrimSpace: remove leading and trailing whitespace. -/
def trimSpace (s : GoString) : GoString :=
  ((s.dropWhile isGoSpace).reverse.dropWhile isGoSpace).reverse

/-- strings.Split with a one-character separator: split at every occurrence of
the separator, keeping empty fields. -/
def splitChar (c : Char) : GoString → List GoString
  | [] => [[]]
  | x :: xs =>
    if x = c then [] :: splitChar c xs
    else
      match splitChar c xs with
      | [] => [[x]]
      | y :: ys => (x :: y) :: ys

/-- strings.SplitN with limit 2 and a one-character separator, presented as the
split at the first occurrence of the separator: none when the separator is
absent, otherwise the part before the first occurrence and everything after
it (kept verbatim, later occurrences included). -/
def breakAt (c : Char) : GoString → Option (GoString × GoString)
  | [] => none
  | x :: xs =>
    if x = c then some ([], xs)
    else (breakAt c xs).map fun p => (x :: p.1, p.2)

/-- Go map lookup over the association-list model. A write is modelled by
prepending a binding, so the first binding found is the most recent write. -/
def lookupA {α : Type} (k : GoString) : List (GoString × α) → Option α
  | [] => none
  | (k2, v) :: rest => if k2 = k then some v else lookupA k rest

/-- A decoded json/yaml document value: either a scalar carrying its fmt-style
rendering, or a mapping with string keys (the map-of-interface shape the Go
decoders produce). -/
inductive JValue : Type where
  | scalar : GoString → JValue
  | obj : List (GoString × JValue) → JValue

instance : Inhabited JValue := ⟨JValue.obj []⟩

instance : Nonempty JValue := ⟨JValue.obj []⟩

instance : Nonempty (List (GoString × JValue)) := ⟨[]⟩

mutual

/-- fmt.Sprintf rendering of a decoded value: a scalar prints its carried
rendering, a mapping prints in the Go map syntax. -/
def render : JValue → GoString
  | .scalar s => s
  | .obj m => ("map[".toList) ++ renderEntries m ++ ("]".toList)

/-- Entries of a mapping, space-separated, each printed as key:value. -/
def renderEntries : List (GoString × JValue) → GoString
  | [] => []
  | [(k, v)] => k ++ (":".toList) ++ render v
  | (k, v) :: e :: rest =>
    k ++ (":".toList) ++ render v ++ (" ".toList) ++ renderEntries (e :: rest)

end

/-- The loop of getNestedValue in nafi.go, one step per dot-separated segment:
at each step the current value must be a mapping that contains the segment as
a key, and the walk moves to the stored value; otherwise the whole walk fails
with no partial result. -/
def walk : List GoString → JValue → Option JValue
  | [], current => some current
  | part :: parts, .obj m =>
    match lookupA part m with
    | some next => walk parts next
    | none => none
  | _ :: _, .scalar _ => none

/-- getNestedValue from nafi.go: split the key on every dot and walk the
nested data starting from the top-level mapping. -/
def getNestedValue (data : List (GoString × JValue)) (key : GoString) : Option JValue :=
  walk (splitChar '.' key) (.obj data)

/-- Modelled from the spec: the sectioned (ini) decoder is an external
collaborator that turns bytes into a section table, a mapping from section
names to flat key/value tables; the empty section name addresses the implicit
unnamed section. -/
structure IniFile : Type where
  sections : List (GoString × List (GoString × GoString))

/-- Modelled from the spec: Section(sec).Key(k).String() of the external ini
library returns the stored string value, and the empty string when the
section or the key is absent. -/
def IniFile.keyString (f : IniFile) (sec k : GoString) : GoString :=
  match lookupA sec f.sections with
  | some tbl => (lookupA k tbl).getD []
  | none => []

/-- ConfigParserObj from nafi.go: the nested data, the raw conf table, the
format tag and the decoded ini file. -/
structure ConfigParserObj : Type where
  data : List (GoString × JValue)
  raw : List (GoString × GoString)
  fileType : GoString
  iniFile : IniFile

/-- The body of the conf loop in newConfigParserFromBytes, applied to one
line: trim the line, skip it when blank or starting with a hash, otherwise
split at the first equals sign if there is one, trim both sides and store the
pair (a later line shadows an earlier binding for the same key, as a Go map
write does). -/
def parseConfLine (raw : List (GoString × GoString)) (line : GoString) :
    List (GoString × GoString) :=
  let l := trimSpace line
  if l = [] then raw
  else if l.head? = some '#' then raw
  else
    match breakAt '=' l with
    | some (k, v) => (trimSpace k, trimSpace v) :: raw
    | none => raw

/-- The raw table built by the conf branch of newConfigParserFromBytes: the
content is split on newlines and each line is processed in order. -/
def newConfRaw (content : GoString) : List (GoString × GoString) :=
  (splitChar '\n' content).foldl parseConfLine []

/-- newConfigParserFromBytes from nafi.go. The ini/json/yaml decoders are
external libraries, passed here as black-box parameters as the specification
prescribes; conf decoding is in-repository code and is modelled concretely.
A decoder failure is propagated unchanged. -/
def newConfigParserFromBytes
    (decodeIni : GoString → Except GoString IniFile)
    (decodeJson decodeYaml : GoString → Except GoString (List (GoString × JValue)))
    (fileType content : GoString) : Except GoString ConfigParserObj :=
  if fileType = ("conf".toList) then
    .ok ⟨[], newConfRaw content, fileType, ⟨[]⟩⟩
  else if fileType = ("ini".toList) then
    match decodeIni content with
    | .ok f => .ok ⟨[], [], fileType, f⟩
    | .error e => .error e
  else if fileType = ("json".toList) then
    match decodeJson content with
    | .ok d => .ok ⟨d, [], fileType, ⟨[]⟩⟩
    | .error e => .error e
  else if fileType = ("yaml".toList) then
    match decodeYaml content with
    | .ok d => .ok ⟨d, [], fileType, ⟨[]⟩⟩
    | .error e => .error e
  else .error (("unsupported file type ".toList) ++ fileType)

/-- The message of fmt.Errorf for a key that was not found. -/
def errKeyNotFound (key : GoString) : GoString :=
  ("key \"".toList) ++ key ++ ("\" not found".toList)

/-- The message of fmt.Errorf for a sectioned key that was not found, naming
both the key and the section. -/
def errKeyNotFoundInSection (k sec : GoString) : GoString :=
  ("key \"".toList) ++ k ++ ("\" not found in section \"".toList) ++ sec ++ ("\"".toList)

/-- Get from nafi.go, as a pure value/error result. The error component is
some message exactly when the Go method returns a non-nil error. -/
def ConfigParserObj.Get (c : ConfigParserObj) (key : GoString) :
    GoString × Option GoString :=
  if c.fileType = ("conf".toList) then
    match lookupA key c.raw with
    | some v => (v, none)
    | none => ([], some (errKeyNotFound key))
  else if c.fileType = ("ini".toList) then
    if key.contains '.' = false then
      let v := c.iniFile.keyString [] key
      if v = [] then ([], some (errKeyNotFound key)) else (v, none)
    else
      match breakAt '.' key with
      | some (sec, k) =>
        let v := c.iniFile.keyString sec k
        if v = [] then ([], some (errKeyNotFoundInSection k sec)) else (v, none)
      | none => ([], some (errKeyNotFound key))
  else if c.fileType = ("json".toList) ∨ c.fileType = ("yaml".toList) then
    match getNestedValue c.data key with
    | some v => (render v, none)
    | none => ([], some (errKeyNotFound key))
  else ([], some (("unsupported file type ".toList) ++ c.fileType))

/-- Get in state-passing form: the Go method reads the receiver through a
pointer and writes none of its fields, so every branch also returns the
receiver as the post-state. -/
def ConfigParserObj.GetS (c : ConfigParserObj) (key : GoString) :
    (GoString × Option GoString) × ConfigParserObj :=
  if c.fileType = ("conf".toList) then
    match lookupA key c.raw with
    | some v => ((v, none), c)
    | none => (([], some (errKeyNotFound key)), c)
  else if c.fileType = ("ini".toList) then
    if key.contains '.' = false then
      let v := c.iniFile.keyString [] key
      if v = [] then (([], some (errKeyNotFound key)), c) else ((v, none), c)
    else
      match breakAt '.' key with
      | some (sec, k) =>
        let v := c.iniFile.keyString sec k
        if v = [] then (([], some (errKeyNotFoundInSection k sec)), c)
        else ((v, none), c)
      | none => (([], some (errKeyNotFound key)), c)
  else if c.fileType = ("json".toList) ∨ c.fileType = ("yaml".toList) then
    match getNestedValue c.data key with
    | some v => ((render v, none), c)
    | none => (([], some (errKeyNotFound key)), c)
  else (([], some (("unsupported file type ".toList) ++ c.fileType)), c)

/-- A sequence of Get calls threaded through the state-passing form, returning
the final object and the list of results in call order. -/
def getSeq (c : ConfigParserObj) : List GoString →
    ConfigParserObj × List (GoString × Option GoString)
  | [] => (c, [])
  | k :: ks =>
    let r := c.GetS k
    let rest := getSeq r.2 ks
    (rest.1, r.1 :: rest.2)

/-- The object built by the conf branch of construction for given content. -/
def confObjOf (content : GoString) : ConfigParserObj :=
  ⟨[], newConfRaw content, "conf".toList, ⟨[]⟩⟩

/-- A dummy black-box ini decoder, used to instantiate universally quantified
statements at a concrete input. -/
def dIni0 : GoString → Except GoString IniFile := fun _ => .error []

/-- A dummy black-box json decoder. -/
def dJson0 : GoString → Except GoString (List (GoString × JValue)) := fun _ => .error []

/-- A dummy black-box yaml decoder. -/
def dYaml0 : GoString → Except GoString (List (GoString × JValue)) := fun _ => .error []

/-- breakAt finds the first occurrence of the separator: when the part before
the separator is free of it, everything after is returned verbatim. -/
theorem breakAt_append_cons (c : Char) (a b : GoString) (h : c ∉ a) :
    breakAt c (a ++ c :: b) = some (a, b) := by
  induction a with
  | nil => simp [breakAt]
  | cons x xs ih =>
    have hx : ¬(x = c) := by
      intro e
      exact h (e ▸ List.mem_cons_self x xs)
    have hxs : c ∉ xs := fun hm => h (List.mem_cons_of_mem _ hm)
    simp [breakAt, hx, ih hxs]

/-- A list that has the separator in the middle contains it. -/
theorem contains_append_cons (c : Char) (a b : GoString) :
    (a ++ c :: b).contains c = true := by
  simp

/-- The conf branch of Get. -/
theorem Get_conf_eq (c : ConfigParserObj) (key : GoString)
    (h : c.fileType = ("conf".toList)) :
    c.Get key = (match lookupA key c.raw with
      | some v => (v, none)
      | none => ([], some (errKeyNotFound key))) := by
  unfold ConfigParserObj.Get
  rw [if_pos h]

/-- The ini branch of Get. -/
theorem Get_ini_eq (c : ConfigParserObj) (key : GoString)
    (h : c.fileType = ("ini".toList)) :
    c.Get key =
      (if key.contains '.' = false then
        if c.iniFile.keyString [] key = [] then ([], some (errKeyNotFound key))
        else (c.iniFile.keyString [] key, none)
      else
        match breakAt '.' key with
        | some (sec, k) =>
          if c.iniFile.keyString sec k = [] then
            ([], some (errKeyNotFoundInSection k sec))
          else (c.iniFile.keyString sec k, none)
        | none => ([], some (errKeyNotFound key))) := by
  have h1 : ¬(c.fileType = ("conf".toList)) := by rw [h]; decide
  unfold ConfigParserObj.Get
  rw [if_neg h1, if_pos h]

/-- The json/yaml branch of Get. -/
theorem Get_jy_eq (c : ConfigParserObj) (key : GoString)
    (h : c.fileType = ("json".toList) ∨ c.fileType = ("yaml".toList)) :
    c.Get key = (match getNestedValue c.data key with
      | some v => (render v, none)
      | none => ([], some (errKeyNotFound key))) := by
  have h1 : ¬(c.fileType = ("conf".toList)) := by
    rcases h with h | h <;> rw [h] <;> decide
  have h2 : ¬(c.fileType = ("ini".toList)) := by
    rcases h with h | h <;> rw [h] <;> decide
  unfold ConfigParserObj.Get
  rw [if_neg h1, if_neg h2, if_pos h]

/-- The state-passing form returns the same result paired with the unchanged
receiver. -/
theorem GetS_eq (c : ConfigParserObj) (key : GoString) :
    c.GetS key = (c.Get key, c) := by
  unfold ConfigParserObj.GetS ConfigParserObj.Get
  repeat' first | rfl | split | dsimp only

/-- Every Get branch that reports an error returns the empty string. -/
theorem get_fst_empty_or_no_err (c : ConfigParserObj) (key : GoString) :
    (c.Get key).1 = [] ∨ (c.Get key).2 = none := by
  unfold ConfigParserObj.Get
  repeat' first | (left ; rfl) | (right ; rfl) | split | dsimp only

/-- C6: for every format tag outside the four supported ones and every byte
content (including empty content), construction fails with the
unsupported-file-type error and yields no usable object, whatever the
external decoders would do. -/
theorem C6_unsupported_format :
    ∀ (dI : GoString → Except GoString IniFile)
      (dJ dY : GoString → Except GoString (List (GoString × JValue)))
      (fileType content : GoString),
      fileType ≠ ("conf".toList) → fileType ≠ ("ini".toList) →
      fileType ≠ ("json".toList) → fileType ≠ ("yaml".toList) →
      newConfigParserFromBytes dI dJ dY fileType content =
        .error (("unsupported file type ".toList) ++ fileType) := by
  intro dI dJ dY ft content h1 h2 h3 h4
  unfold newConfigParserFromBytes
  rw [if_neg h1, if_neg h2, if_neg h3, if_neg h4]

/-- Witness for C6 at the concrete tag toml and empty content. -/
theorem C6_witness :
    newConfigParserFromBytes dIni0 dJson0 dYaml0 ("toml".toList) [] =
      .error (("unsupported file type ".toList) ++ ("toml".toList)) :=
  C6_unsupported_format dIni0 dJson0 dYaml0 ("toml".toList) []
    (by decide) (by decide) (by decide) (by decide)

/-- C10: conf construction never fails: for every content the conf branch
returns the parsed object with no error, and a line whose trimmed form has no
equals sign is silently ignored rather than reported. -/
theorem C10_conf_construction_total :
    (∀ (dI : GoString → Except GoString IniFile)
       (dJ dY : GoString → Except GoString (List (GoString × JValue)))
       (content : GoString),
      newConfigParserFromBytes dI dJ dY ("conf".toList) content =
        .ok (confObjOf content)) ∧
    (∀ (raw : List (GoString × GoString)) (line : GoString),
      breakAt '=' (trimSpace line) = none → parseConfLine raw line = raw) := by
  constructor
  · intro dI dJ dY content
    unfold newConfigParserFromBytes
    rw [if_pos rfl]
    rfl
  · intro raw line h
    unfold parseConfLine
    dsimp only
    rw [h]
    repeat' first | rfl | split

/-- Witness for C10: construction succeeds on concrete conf content, and a
concrete line without an equals sign is ignored. -/
theorem C10_witness :
    newConfigParserFromBytes dIni0 dJson0 dYaml0 ("conf".toList) ("x".toList) =
        .ok (confObjOf ("x".toList)) ∧
      parseConfLine [] ("noequals".toList) = [] :=
  ⟨C10_conf_construction_total.1 dIni0 dJson0 dYaml0 ("x".toList),
   C10_conf_construction_total.2 [] ("noequals".toList) (by decide)⟩

/-- C7: whenever Get returns an error the accompanying string is empty, and
the error is non-fatal: the object after the call is the one from
construction, so it remains usable for further lookups. -/
theorem C7_error_empty_and_nonfatal :
    ∀ (c : ConfigParserObj) (key e : GoString),
      (c.Get key).2 = some e → (c.Get key).1 = [] ∧ (c.GetS key).2 = c := by
  intro c key e h
  refine ⟨?_, by rw [GetS_eq]⟩
  rcases get_fst_empty_or_no_err c key with h1 | h1
  · exact h1
  · rw [h1] at h
    exact Option.noConfusion h

/-- Witness for C7 at a concrete failing lookup. -/
theorem C7_witness :
    ((confObjOf []).Get ("x".toList)).1 = [] ∧
      ((confObjOf []).GetS ("x".toList)).2 = confObjOf [] :=
  C7_error_empty_and_nonfatal (confObjOf []) ("x".toList)
    (errKeyNotFound ("x".toList)) rfl

/-- C8: Get mutates nothing: after any sequence of Get calls the object, with
all of its stored data, is exactly the object from construction. -/
theorem C8_get_no_mutation :
    ∀ (c : ConfigParserObj) (keys : List GoString), (getSeq c keys).1 = c := by
  intro c keys
  induction keys generalizing c with
  | nil => rfl
  | cons k ks ih =>
    simp only [getSeq, GetS_eq]
    exact ih c

/-- C9: repeated Get calls with the same key return identical results: a run
of n calls returns n copies of the first result. -/
theorem C9_get_idempotent :
    ∀ (c : ConfigParserObj) (key : GoString) (n : Nat),
      (getSeq c (List.replicate n key)).2 = List.replicate n (c.Get key) := by
  intro c key n
  induction n with
  | zero => rfl
  | succ m ih =>
    simp only [List.replicate_succ, getSeq, GetS_eq]
    rw [ih]

/-- C2: for json/yaml, Get splits the key on every dot into an ordered list
of segments and walks the nested data; a step succeeds exactly when the
current value is a mapping containing the next segment, and any failure makes
Get return the key-not-found error with no partial result. -/
theorem C2_nested_walk :
    (∀ (data : List (GoString × JValue)) (key : GoString),
      getNestedValue data key = walk (splitChar '.' key) (JValue.obj data)) ∧
    (∀ (parts : List GoString) (v r : JValue),
      walk parts v = some r ↔
        (parts = [] ∧ r = v) ∨
        (∃ p ps m next, parts = p :: ps ∧ v = JValue.obj m ∧
          lookupA p m = some next ∧ walk ps next = some r)) ∧
    (∀ (c : ConfigParserObj) (key : GoString),
      (c.fileType = ("json".toList) ∨ c.fileType = ("yaml".toList)) →
      getNestedValue c.data key = none →
      c.Get key = ([], some (errKeyNotFound key))) := by
  refine ⟨fun _ _ => rfl, ?_, ?_⟩
  · intro parts v r
    cases parts with
    | nil => simp [walk, eq_comm]
    | cons p ps =>
      cases v with
      | scalar s => simp [walk]
      | obj m =>
        cases hl : lookupA p m with
        | none => simp [walk, hl]
        | some next =>
          simp only [walk, hl, List.cons.injEq, JValue.obj.injEq, Option.some.injEq]
          constructor
          · intro h
            exact Or.inr ⟨p, ps, m, next, ⟨rfl, rfl⟩, rfl, hl, h⟩
          · rintro (⟨hne, _⟩ | ⟨p1, ps1, m1, next1, ⟨rfl, rfl⟩, rfl, hx, hw⟩)
            · exact (List.cons_ne_nil p ps hne).elim
            · rw [hl] at hx
              cases hx
              exact hw
  · intro c key hft hnv
    rw [Get_jy_eq c key hft, hnv]

/-- A concrete json object: one nested section and nothing else. -/
def jsonMapObj : ConfigParserObj :=
  ⟨[(("a".toList), JValue.obj [(("b".toList), JValue.scalar ("c".toList))])],
    [], "json".toList, ⟨[]⟩⟩

/-- Witness for C2 at a concrete failing path: the second segment is absent,
so the result is the empty string plus the key-not-found error. -/
theorem C2_witness :
    jsonMapObj.Get ("a.zz".toList) = ([], some (errKeyNotFound ("a.zz".toList))) :=
  C2_nested_walk.2.2 jsonMapObj ("a.zz".toList) (Or.inl rfl) rfl

/-- C3: for ini, a key with at least one dot is split at the first dot only
into section and rest; rest is looked up as one literal key inside the named
section, never split further even when it contains dots, and the not-found
error names both the key and the section. -/
theorem C3_ini_first_dot_split :
    ∀ (c : ConfigParserObj) (sec k : GoString),
      c.fileType = ("ini".toList) → '.' ∉ sec →
      c.Get (sec ++ '.' :: k) =
        if c.iniFile.keyString sec k = [] then
          ([], some (errKeyNotFoundInSection k sec))
        else (c.iniFile.keyString sec k, none) := by
  intro c sec k hft hsec
  rw [Get_ini_eq c _ hft, contains_append_cons, breakAt_append_cons '.' sec k hsec]
  simp

/-- A concrete ini object whose section s stores the dotted key a.b. -/
def iniDotObj : ConfigParserObj :=
  ⟨[], [], "ini".toList, ⟨[(("s".toList), [(("a.b".toList), ("v".toList))])]⟩⟩

/-- Witness for C3: looking up s.a.b finds the literal key a.b inside section
s, so the rest of the key is not split at its own dot. -/
theorem C3_witness :
    iniDotObj.Get (("s".toList) ++ '.' :: ("a.b".toList)) = ("v".toList, none) := by
  rw [C3_ini_first_dot_split iniDotObj ("s".toList) ("a.b".toList) rfl (by decide)]
  decide

/-- C5: for json/yaml, a dotted path that resolves to a value that is itself
a mapping succeeds: Get returns the mapping rendered to its default string
form, not an error. -/
theorem C5_mapping_renders :
    ∀ (c : ConfigParserObj) (key : GoString) (m : List (GoString × JValue)),
      (c.fileType = ("json".toList) ∨ c.fileType = ("yaml".toList)) →
      getNestedValue c.data key = some (JValue.obj m) →
      c.Get key = (render (JValue.obj m), none) := by
  intro c key m hft hnv
  rw [Get_jy_eq c key hft, hnv]

/-- Witness for C5: the path a stops above the leaf b, and Get returns the
rendered sub-mapping with no error. -/
theorem C5_witness :
    jsonMapObj.Get ("a".toList) =
      (render (JValue.obj [(("b".toList), JValue.scalar ("c".toList))]), none) :=
  C5_mapping_renders jsonMapObj ("a".toList)
    [(("b".toList), JValue.scalar ("c".toList))] (Or.inl rfl) rfl

/-- C4: conf decoding goes line by line: a line that trims to nothing is
ignored, a line that trims to a hash-led comment is ignored, and any other
line with an equals sign is split at the first equals sign only, both sides
are trimmed, and the value keeps every later equals sign and special
character verbatim; a later Get of a stored key returns exactly the stored
value, as the two concrete round-trips from the specification show. -/
theorem C4_conf_decode :
    (∀ (raw : List (GoString × GoString)) (line : GoString),
      trimSpace line = [] → parseConfLine raw line = raw) ∧
    (∀ (raw : List (GoString × GoString)) (line rest : GoString),
      trimSpace line = '#' :: rest → parseConfLine raw line = raw) ∧
    (∀ (raw : List (GoString × GoString)) (line k v : GoString),
      trimSpace line = k ++ '=' :: v → '=' ∉ k →
      (k ++ '=' :: v).head? ≠ some '#' →
      parseConfLine raw line = (trimSpace k, trimSpace v) :: raw) ∧
    (∀ (content key v : GoString),
      lookupA key (newConfRaw content) = some v →
      (confObjOf content).Get key = (v, none)) ∧
    (confObjOf ("key1=value1\nkey2 = value2".toList)).Get ("key1".toList) =
      ("value1".toList, none) ∧
    (confObjOf ("key4 = rAR#vW@==4EV".toList)).Get ("key4".toList) =
      ("rAR#vW@==4EV".toList, none) := by
  refine ⟨?_, ?_, ?_, ?_, by decide, by decide⟩
  · intro raw line h
    unfold parseConfLine
    dsimp only
    rw [h]
    rfl
  · intro raw line rest h
    unfold parseConfLine
    dsimp only
    rw [h]
    rfl
  · intro raw line k v h hk hh
    unfold parseConfLine
    dsimp only
    rw [h, if_neg (by simp : ¬(k ++ '=' :: v = [])), if_neg hh,
      breakAt_append_cons '=' k v hk]
  · intro content key v h
    rw [Get_conf_eq _ _ rfl]
    show (match lookupA key (newConfRaw content) with
      | some v => (v, none)
      | none => ([], some (errKeyNotFound key))) = _
    rw [h]

/-- Witness for C4: a concrete line is split at its first equals sign and the
value keeps the later equals sign verbatim. -/
theorem C4_witness :
    parseConfLine [] ("a=b=c".toList) = [(("a".toList), ("b=c".toList))] := by
  rw [C4_conf_decode.2.2.1 [] ("a=b=c".toList) ("a".toList) ("b=c".toList)
    (by decide) (by decide) (by decide)]
  decide

/-- A concrete ini object whose section s holds the key foo with the empty
string as its stored value. -/
def iniEmptyValObj : ConfigParserObj :=
  ⟨[], [], "ini".toList, ⟨[(("s".toList), [(("foo".toList), [])])]⟩⟩

/-- C1 fails as stated: in this ini object the key s.foo is present in the
decoded data (section s stores foo, with the empty string as value), yet Get
returns an error instead of the stored value with no error, because the code
cannot tell an empty stored value from an absent key. -/
theorem C1_counterexample :
    lookupA ("foo".toList)
        ((lookupA ("s".toList) iniEmptyValObj.iniFile.sections).getD []) = some [] ∧
      iniEmptyValObj.Get ("s.foo".toList) =
        ([], some (errKeyNotFoundInSection ("foo".toList) ("s".toList))) := by
  decide

/-- C1 (amended): for conf and json/yaml, Get of a present key returns the
stored value (its rendering, for json/yaml) with no error and of an absent
key the empty string with an error; for ini a present key is returned with no
error only when its stored value is non-empty, and a key that is absent or
stored with the empty value yields the empty string with an error; no branch
ever pairs a non-empty string with an error. -/
theorem C1_get_contract :
    (∀ (c : ConfigParserObj) (key v : GoString),
      c.fileType = ("conf".toList) → lookupA key c.raw = some v →
      c.Get key = (v, none)) ∧
    (∀ (c : ConfigParserObj) (key : GoString),
      c.fileType = ("conf".toList) → lookupA key c.raw = none →
      c.Get key = ([], some (errKeyNotFound key))) ∧
    (∀ (c : ConfigParserObj) (key : GoString) (v : JValue),
      (c.fileType = ("json".toList) ∨ c.fileType = ("yaml".toList)) →
      getNestedValue c.data key = some v →
      c.Get key = (render v, none)) ∧
    (∀ (c : ConfigParserObj) (key : GoString),
      (c.fileType = ("json".toList) ∨ c.fileType = ("yaml".toList)) →
      getNestedValue c.data key = none →
      c.Get key = ([], some (errKeyNotFound key))) ∧
    (∀ (c : ConfigParserObj) (key : GoString),
      c.fileType = ("ini".toList) → key.contains '.' = false →
      (c.iniFile.keyString [] key ≠ [] →
        c.Get key = (c.iniFile.keyString [] key, none)) ∧
      (c.iniFile.keyString [] key = [] →
        c.Get key = ([], some (errKeyNotFound key)))) ∧
    (∀ (c : ConfigParserObj) (sec k : GoString),
      c.fileType = ("ini".toList) → '.' ∉ sec →
      (c.iniFile.keyString sec k ≠ [] →
        c.Get (sec ++ '.' :: k) = (c.iniFile.keyString sec k, none)) ∧
      (c.iniFile.keyString sec k = [] →
        c.Get (sec ++ '.' :: k) =
          ([], some (errKeyNotFoundInSection k sec)))) ∧
    (∀ (c : ConfigParserObj) (key e : GoString),
      (c.Get key).2 = some e → (c.Get key).1 = []) := by
  refine ⟨?_, ?_, ?_, ?_, ?_, ?_, ?_⟩
  · intro c key v hft hl
    rw [Get_conf_eq c key hft, hl]
  · intro c key hft hl
    rw [Get_conf_eq c key hft, hl]
  · intro c key v hft hl
    rw [Get_jy_eq c key hft, hl]
  · intro c key hft hl
    rw [Get_jy_eq c key hft, hl]
  · intro c key hft hnd
    rw [Get_ini_eq c key hft, hnd]
    constructor
    · intro hv
      rw [if_pos rfl, if_neg hv]
    · intro hv
      rw [if_pos rfl, if_pos hv]
  · intro c sec k hft hsec
    rw [Get_ini_eq c _ hft, contains_append_cons, breakAt_append_cons '.' sec k hsec]
    constructor
    · intro hv
      simp [hv]
    · intro hv
      simp [hv]
  · intro c key e h
    rcases get_fst_empty_or_no_err c key with h1 | h1
    · exact h1
    · rw [h1] at h
      exact Option.noConfusion h

/-- Witness for C1 (amended) at a concrete conf object with a present key. -/
theorem C1_witness :
    (confObjOf ("a=b".toList)).Get ("a".toList) = ("b".toList, none) :=
  C1_get_contract.1 (confObjOf ("a=b".toList)) ("a".toList) ("b".toList)
    rfl (by decide)

end Nafi
